import Mathlib

/-!
Shallow embedding of the MTRoyal course-listing ingestion from the
ScheduleStorm server (src/uni/MTRoyal.py), together with theorems about
its note-grouping engine, tabular listing pass, section assembly and
description-fetch worker.

Python strings are modelled as Lean strings (a wrapper around a list of
characters); the Python helpers str.strip, str.replace, str.split,
str.rstrip, the substring test and int() are re-implemented below with
Python semantics.  Python dictionaries (which preserve insertion order)
are modelled as association lists.  A Python function that can raise an
exception is modelled as returning an Option, none standing for the
exception propagating to the caller.
-/

/-! ## Python string primitives -/

/-- Whitespace characters stripped by Python str.strip (including the
non-breaking space, which str.strip also removes). -/
def isPyWs (c : Char) : Bool :=
  c = ' ' || c = '\t' || c = '\n' || c = '\r' || c = '\x0b' || c = '\x0c' || c = ' '

/-- Python str.strip on a list of characters. -/
def trimL (cs : List Char) : List Char :=
  ((cs.dropWhile isPyWs).reverse.dropWhile isPyWs).reverse

/-- Python str.strip. -/
def pyTrim (s : String) : String := ⟨trimL s.data⟩

/-- Python str.rstrip with a set of characters: removes any trailing
characters belonging to the set. -/
def pyRStrip (s : String) (set : List Char) : String :=
  ⟨(s.data.reverse.dropWhile (fun c => set.contains c)).reverse⟩

/-- Python str.upper (ASCII). -/
def pyUpper (s : String) : String := ⟨s.data.map Char.toUpper⟩

/-- Decimal digit character for a value below ten. -/
def digitChar (n : Nat) : Char := Char.ofNat (48 + n)

/-- Accumulator form of the decimal printing of a natural number, with
structural fuel (the fuel never runs out when it starts at the number
itself, since div by ten decreases). -/
def natDigitsGo (fuel n : Nat) (acc : List Char) : List Char :=
  match fuel with
  | 0 => digitChar n :: acc
  | fuel + 1 =>
    if n < 10 then digitChar n :: acc
    else natDigitsGo fuel (n / 10) (digitChar (n % 10) :: acc)

/-- Decimal digits of a natural number (the model of Python str(n) for n >= 0). -/
def natDigits (n : Nat) : List Char := natDigitsGo n n []

/-- Python str on a natural number. -/
def natToStr (n : Nat) : String := ⟨natDigits n⟩

/-- Python str on an integer. -/
def intToStr (i : Int) : String :=
  if i < 0 then ⟨'-' :: natDigits i.natAbs⟩ else ⟨natDigits i.toNat⟩

/-- Numeric value of a digit character. -/
def digitVal (c : Char) : Nat := c.toNat - 48

/-- Parses a nonempty all-digit character list to its value. -/
def parseDigits (cs : List Char) : Option Nat :=
  if cs ≠ [] ∧ cs.all Char.isDigit then
    some (cs.foldl (fun a c => a * 10 + digitVal c) 0)
  else none

/-- Python int() on a string: strips whitespace, accepts an optional sign
followed by decimal digits, raises (none) otherwise. -/
def parsePyInt (s : String) : Option Int :=
  match trimL s.data with
  | [] => none
  | c :: rest =>
    if c = '-' then (parseDigits rest).map (fun n => -(n : Int))
    else if c = '+' then (parseDigits rest).map (fun n => (n : Int))
    else (parseDigits (c :: rest)).map (fun n => (n : Int))

/-- Python single-character str.split. -/
def splitCh (sep : Char) : List Char → List (List Char)
  | [] => [[]]
  | c :: cs =>
    if c = sep then [] :: splitCh sep cs
    else
      match splitCh sep cs with
      | [] => [[c]]
      | p :: ps => (c :: p) :: ps

/-- Python str.split with a single-character separator. -/
def splitChStr (sep : Char) (s : String) : List String :=
  (splitCh sep s.data).map String.mk

/-- Python str.replace on character lists (all non-overlapping occurrences,
leftmost first; an empty needle leaves the text unchanged, matching
s.replace("", "")).  Structural fuel: starting it at the length of the
text, the exhausted case is unreachable because every step consumes at
least one character. -/
def replaceGo (needle repl : List Char) : Nat → List Char → List Char
  | _, [] => []
  | 0, s => s
  | fuel + 1, c :: cs =>
    if 0 < needle.length ∧ needle.isPrefixOf (c :: cs) = true then
      repl ++ replaceGo needle repl fuel ((c :: cs).drop needle.length)
    else
      c :: replaceGo needle repl fuel cs

def replaceSub (needle repl s : List Char) : List Char :=
  replaceGo needle repl s.length s

/-- Python str.replace. -/
def pyReplace (s needle repl : String) : String :=
  ⟨replaceSub needle.data repl.data s.data⟩

/-- Python str.split with a multi-character separator (structural fuel as
in replaceGo). -/
def splitGo (needle : List Char) : Nat → List Char → List (List Char)
  | _, [] => [[]]
  | 0, s => [s]
  | fuel + 1, c :: cs =>
    if 0 < needle.length ∧ needle.isPrefixOf (c :: cs) = true then
      [] :: splitGo needle fuel ((c :: cs).drop needle.length)
    else
      match splitGo needle fuel cs with
      | [] => [[c]]
      | p :: ps => (c :: p) :: ps

def splitSub (needle s : List Char) : List (List Char) :=
  splitGo needle s.length s

/-- Python str.split with a string separator. -/
def splitSubStr (needle s : String) : List String :=
  (splitSub needle.data s.data).map String.mk

/-- Python substring containment on character lists. -/
def containsSubL (needle : List Char) : List Char → Bool
  | [] => needle.isPrefixOf []
  | c :: cs => needle.isPrefixOf (c :: cs) || containsSubL needle cs

/-- Python substring containment (needle in s). -/
def containsSub (needle s : String) : Bool := containsSubL needle.data s.data

/-- Python str.startswith. -/
def startsWithStr (needle s : String) : Bool := needle.data.isPrefixOf s.data

/-- Python s[:-1]. -/
def strDropLast (s : String) : String := ⟨s.data.dropLast⟩

/-! ## Group map values

The grouping dictionary maps class keys to Python lists whose elements
are integers (line 265 of the source stores the bare int curgroupnum)
or strings (line 350 stores str(curgroupnum - 1)). -/

/-- A Python value stored in a grouping list: either an int or a str. -/
inductive PyVal where
  | pint (n : Int)
  | pstr (s : String)
deriving DecidableEq, Repr

/-- The groupings dictionary: insertion-ordered association list. -/
abbrev GroupMap := List (String × List PyVal)

/-- Python dict lookup. -/
def mapLookup : GroupMap → String → Option (List PyVal)
  | [], _ => none
  | (k, v) :: rest, key => if k = key then some v else mapLookup rest key

/-- Python dict assignment d[key] = v: replaces in place, or appends a new
entry at the end (insertion order). -/
def mapSet : GroupMap → String → List PyVal → GroupMap
  | [], key, v => [(key, v)]
  | (k, w) :: rest, key, v =>
    if k = key then (k, v) :: rest else (k, w) :: mapSet rest key v

/-- Lines 347-350 of the source combined: if the key is absent insert an
empty list, then append the value to the list at the key. -/
def addGroupVal (m : GroupMap) (key : String) (v : PyVal) : GroupMap :=
  match mapLookup m key with
  | some l => mapSet m key (l ++ [v])
  | none => mapSet m key [v]

/-- Python int() applied to a stored group value (int(x) is the identity
on ints and parses strings). -/
def pyValInt : PyVal → Option Int
  | .pint n => some n
  | .pstr s => parsePyInt s

/-- Lines 238-242: the maximum group id across the whole map, starting
from 0; int() on an unparseable stored string raises (none). -/
def maxGroupNum (m : GroupMap) : Option Int :=
  m.foldlM
    (fun acc kv =>
      kv.2.foldlM
        (fun a v => (pyValInt v).map (fun i => if a < i then i else a)) acc)
    0

/-! ## Instruction types -/

/-- The MTRoyal.instructionTypes table. -/
def instructionTypes : List (String × String) :=
  [("LEC", "LECTURE"), ("LAB", "LAB"), ("TUT", "TUTORIAL"),
   ("DD", "DISTANCE DELIVERY"), ("BL", "BLENDED DELIVERY"),
   ("WKT", "WORK TERM"), ("FLD", "FIELD WORK"), ("PRC", "PRACTICUM"),
   ("CLI", "CLINICAL"), ("IDS", "INTERNSHIP")]

/-- The inverted table built in the constructor: long name to short code
(all long names are distinct, so the comprehension is a bijection). -/
def invertedTypes : List (String × String) :=
  instructionTypes.map (fun p => (p.2, p.1))

/-- Membership test plus lookup in invertedTypes. -/
def invLookup (s : String) : Option String :=
  (invertedTypes.find? (fun p => p.1 = s)).map Prod.snd

/-! ## The note regular expression

re.search of the pattern (\w[ \w]*) (\d*) take ([^.;]*) with Python
semantics: leftmost starting position; at a given position the first
group \w[ \w]* is tried greedily, longest first; the digit group is
greedy (giving digits back would place a digit where the following
literal space is required, so only the maximal digit run can match);
the third group [^.;]* is greedy. -/

/-- A word character for \w (ASCII). -/
def isWordChar (c : Char) : Bool := c.isAlpha || c.isDigit || c = '_'

/-- A character of the class [ \w]. -/
def isWordSp (c : Char) : Bool := isWordChar c || c = ' '

/-- Matches the tail of the pattern after group one: a literal space, the
greedy digit group, the literal " take " and then the greedy [^.;]* group.
Returns (digit group, third group) on success. -/
def matchTail : List Char → Option (List Char × List Char)
  | ' ' :: s1 =>
    let ds := s1.takeWhile Char.isDigit
    match s1.drop ds.length with
    | ' ' :: 't' :: 'a' :: 'k' :: 'e' :: ' ' :: rest =>
      some (ds, rest.takeWhile (fun c => !(c = '.' || c = ';')))
    | _ => none
  | _ => none

/-- Backtracking over the length of the tail of group one (the leading
word character is c0, run is the maximal [ \w] run after it, rem the rest
of the input): tries taking k characters of run into group one, longest
first. -/
def tryLensDown (c0 : Char) (run rem : List Char) :
    Nat → Option (List Char × List Char × List Char)
  | 0 =>
    match matchTail (run ++ rem) with
    | some (g2, g3) => some ([c0], g2, g3)
    | none => none
  | k + 1 =>
    match matchTail (run.drop (k + 1) ++ rem) with
    | some (g2, g3) => some (c0 :: run.take (k + 1), g2, g3)
    | none => tryLensDown c0 run rem k

/-- re.search scanning: tries each starting position left to right; group
one must start with a word character. -/
def searchNote : List Char → Option (List Char × List Char × List Char)
  | [] => none
  | c :: cs =>
    if isWordChar c then
      let run := cs.takeWhile isWordSp
      match tryLensDown c run (cs.drop run.length) run.length with
      | some r => some r
      | none => searchNote cs
    else searchNote cs

/-- Line 248: re.search("(\w[ \w]*) (\d*) take ([^.;]*)", note), returning
the three captured groups. -/
def matchNote (note : String) : Option (String × String × String) :=
  (searchNote note.data).map (fun r => (⟨r.1⟩, ⟨r.2.1⟩, ⟨r.2.2⟩))

/-! ## MTRoyal.parseNotes and helpers -/

/-- MTRoyal.classRange (lines 303-316): splits on every dash, parses the
first two pieces as ints a and b (raising none on failure) and returns
the decimal strings of a..b inclusive (empty when a > b).  With fewer
than two pieces the index access raises. -/
def classRange (s : String) : Option (List String) :=
  match splitChStr '-' s with
  | c0 :: c1 :: _ =>
    match parsePyInt c0, parsePyInt c1 with
    | some a, some b =>
      some ((List.range (b + 1 - a).toNat).map
        (fun (i : Nat) => intToStr (a + (i : Int))))
    | _, _ => none
  | _ => none

/-- MTRoyal.processNoteFragment (lines 318-350).  The callingClass
parameter of the source is unused by its body and is omitted.  Splits the
fragment on " or "; each piece is a dash range, a comma list or a single
number; every resulting class key gets str(curgroupnum - 1) appended
(after inserting an empty list when the key is absent).  noteClasses is
the alternative-shape dispatch of lines 336-341. -/
def noteClasses (g : String) : Option (List String) :=
  if containsSub "-" g then classRange g
  else if containsSub "," g then some (splitChStr ',' g)
  else some [g]

/-- Lines 318-350 continued: the fold over or-alternatives. -/
def processNoteFragment (group : String) (curdict : GroupMap)
    (curgroupnum : Nat) (ty : String) : Option GroupMap :=
  (splitSubStr " or " group).foldlM
    (fun d g =>
      match noteClasses g with
      | none => none
      | some classes =>
        some (classes.foldl
          (fun d classv =>
            addGroupVal d (ty ++ " " ++ pyTrim classv)
              (PyVal.pstr (natToStr (curgroupnum - 1))))
          d))
    curdict

/-- One clause of the note body (lines 268-301): strip, remove a leading
"one of" (remembering it), take the leading non-digit run as the
instruction-type word (the regex (\D*) always matches at position 0),
delete that run from the clause, uppercase and strip it, singularise when
"one of" was present, and process the fragment when the type resolves. -/
def processClause (cg : String) (curdict : GroupMap) (curgroupnum : Nat) :
    Option GroupMap :=
  let group := pyTrim cg
  let go := startsWithStr "one of" group
  let group := if go then pyTrim (pyReplace group "one of" "") else group
  let oneof := go
  let pre : String := ⟨group.data.takeWhile (fun c => !c.isDigit)⟩
  let group2 := pyTrim (pyReplace group pre "")
  let itypeRaw := pyTrim (pyUpper pre)
  let itype := if oneof then strDropLast itypeRaw else itypeRaw
  match invLookup itype with
  | none => some curdict
  | some code => processNoteFragment group2 curdict curgroupnum code

/-- MTRoyal.parseNotes (lines 222-301).  Computes the starting group
number from the whole map, matches the note shape, resolves the calling
type, assigns the calling class the singleton list [curgroupnum] (a bare
int), increments, and processes every "and"-separated clause. -/
def parseNotes (note : String) (curdict : GroupMap) : Option GroupMap :=
  match maxGroupNum curdict with
  | none => none
  | some mx =>
    let base : Nat := mx.toNat + 1
    match matchNote note with
    | none => some curdict
    | some (g0, g1, g2) =>
      match invLookup (pyUpper g0) with
      | none => some curdict
      | some code =>
        let classgroups := splitSubStr "and" g2
        let callingClass := code ++ " " ++ g1
        let d := mapSet curdict callingClass [PyVal.pint (Int.ofNat base)]
        classgroups.foldlM (fun d cg => processClause cg d (base + 1)) d

/-- The key under which a note stores its calling class, when the note
matches and its type word resolves (mirrors lines 248-265). -/
def noteCalling (note : String) : Option String :=
  match matchNote note with
  | none => none
  | some (g0, g1, _) =>
    match invLookup (pyUpper g0) with
    | none => none
    | some code => some (code ++ " " ++ g1)

/-- A (key, value) pair present in a grouping map. -/
def pairMem (m : GroupMap) (k : String) (v : PyVal) : Prop :=
  ∃ l, mapLookup m k = some l ∧ v ∈ l

/-! ## MTRoyal.parseClassList: the tabular listing pass

A row of the display table is, after HTML extraction, either a title row,
a header row, or a data row carrying the list of its cell texts (raw, not
yet stripped).  The record being assembled is the Python dict thisClass;
absence of a list-valued key and presence with an empty list behave
identically in the source (both append-extend and both raise on index
access), so list fields are plain lists defaulting to empty. -/

/-- The raw class record assembled row by row. -/
structure Record where
  id : Option Int := none
  subject : Option String := none
  coursenum : Option String := none
  sect : Option String := none
  title : Option String := none
  rtype : Option String := none
  times : List String := []
  status : Option String := none
  teachers : List String := []
  rooms : List String := []
deriving DecidableEq, Repr

/-- The kind of a schema column. -/
inductive CKind where
  | kint
  | kstring
  | klist
deriving DecidableEq, Repr

/-- The columnKeys schema table (lines 366-384): position to ignored
(none) or field name and kind. -/
def columnKeys : List (Option (String × CKind)) :=
  [none,
   some ("id", CKind.kint),
   some ("subject", CKind.kstring),
   some ("coursenum", CKind.kstring),
   some ("section", CKind.kstring),
   none,
   some ("title", CKind.kstring),
   some ("type", CKind.kstring),
   some ("times", CKind.klist),
   some ("times", CKind.klist),
   none,
   none,
   some ("status", CKind.kstring),
   none,
   some ("teachers", CKind.klist),
   none,
   some ("rooms", CKind.klist),
   none]

/-- Stores a string value into the record field named by the schema
(thisClass[name] = value). -/
def setStrField (r : Record) (name : String) (v : String) : Record :=
  if name = "subject" then { r with subject := some v }
  else if name = "coursenum" then { r with coursenum := some v }
  else if name = "section" then { r with sect := some v }
  else if name = "title" then { r with title := some v }
  else if name = "type" then { r with rtype := some v }
  else if name = "status" then { r with status := some v }
  else r

/-- Stores an int value into the record field named by the schema. -/
def setIntField (r : Record) (name : String) (v : Int) : Record :=
  if name = "id" then { r with id := some v } else r

/-- Lines 483-495: the seat-availability cell.  int() failing gives
"Closed"; a positive count gives "Open"; otherwise "Wait List" only when
the status key is not yet present. -/
def seatsUpdate (cell : String) (prior : Option String) : Option String :=
  match parsePyInt cell with
  | some n =>
    if 0 < n then some "Open"
    else
      match prior with
      | none => some "Wait List"
      | some s => some s
  | none => some "Closed"

/-- Lines 497-510: the teacher cell.  The text (already stripped) has
trailing characters of the set " (P)" removed and is stripped again; a
copy with runs of three then two spaces collapsed is the stored form;
both the raw and the collapsed form are checked against the stored list
before appending the collapsed form. -/
def addTeacher (cell : String) (cur : List String) : List String :=
  let t := pyTrim (pyRStrip cell [' ', '(', 'P', ')'])
  let fmt := pyReplace (pyReplace t "   " " ") "  " " "
  if t ∈ cur then cur
  else if fmt ∈ cur then cur
  else cur ++ [fmt]

/-- Lines 473-475: the time-range normalisation replace chain. -/
def normTime (s : String) : String :=
  pyReplace (pyReplace (pyReplace s "-" " - ") " pm" "PM") " am" "AM"

/-- The non-breaking space marking a continuation row in column 0. -/
def NBSP : String := " "

/-- Per-row mutable state while the columns of one data row are scanned. -/
structure RowSt where
  thisClass : Record
  lastClass : Record
  isLastClass : Bool
  isNote : Bool
  newCourse : Bool
  groupings : GroupMap
deriving DecidableEq, Repr

/-- Lines 441-527: the schema-driven extraction of one cell once the
guard has passed and the cell is not part of a note.  none models a
raised exception (int() on a non-numeric id cell, or the time cell when
the day list is empty). -/
def extractCell (st : RowSt) (idx : Nat) (cell : String) : Option RowSt :=
  match columnKeys.get? idx with
  | some (some ck) =>
    let thiscolumn := pyTrim cell
    if idx = 0 ∧ st.isLastClass = false then
      if thiscolumn = "C" then
        some { st with thisClass := { st.thisClass with status := some "Closed" } }
      else some st
    else if idx = 3 ∧ st.isLastClass = false then
      let nc :=
        match st.lastClass.coursenum with
        | some c => decide (¬ c = thiscolumn)
        | none => false
      some { st with newCourse := st.newCourse || nc,
                     thisClass := { st.thisClass with coursenum := some thiscolumn } }
    else if idx = 8 then
      some { st with thisClass :=
              { st.thisClass with times := st.thisClass.times ++ [thiscolumn] } }
    else if idx = 9 then
      match st.thisClass.times.getLast? with
      | none => none
      | some lastT =>
        let t := normTime thiscolumn
        let t := if ¬ lastT = "" then " " ++ t else t
        some { st with thisClass :=
                { st.thisClass with
                  times := st.thisClass.times.dropLast ++ [lastT ++ t] } }
    else if idx = 12 ∧ st.isLastClass = false then
      some { st with thisClass :=
              { st.thisClass with status := seatsUpdate thiscolumn st.thisClass.status } }
    else if idx = 14 then
      some { st with thisClass :=
              { st.thisClass with teachers := addTeacher thiscolumn st.thisClass.teachers } }
    else if idx = 16 then
      some { st with thisClass :=
              { st.thisClass with rooms := st.thisClass.rooms ++ [thiscolumn] } }
    else if st.isLastClass = false then
      match ck.2 with
      | CKind.kint =>
        (parsePyInt thiscolumn).map
          (fun v => { st with thisClass := setIntField st.thisClass ck.1 v })
      | _ => some { st with thisClass := setStrField st.thisClass ck.1 thiscolumn }
    else some st
  | _ => some st

/-- Lines 423-529: processing of one cell of a data row at its column
index.  Column 0 holding the non-breaking space switches the row into a
continuation of the previous record (aliasing thisClass to it); the main
guard admits columns above 0 on a primary row and above 5 on a
continuation row; a continuation cell 6 containing "Note" marks the row
as a note, whose cell 7 is routed to parseNotes with the current
groupings. -/
def processColumn (st : RowSt) (idx : Nat) (cell : String) : Option RowSt :=
  let st :=
    if idx = 0 ∧ cell = NBSP then
      { st with isLastClass := true, thisClass := st.lastClass }
    else st
  if (0 < idx ∧ st.isLastClass = false) ∨ (5 < idx ∧ st.isLastClass = true) then
    if st.isLastClass = true ∧ idx = 6 ∧ containsSub "Note" cell = true then
      some { st with isNote := true }
    else if st.isNote = true ∧ idx = 7 then
      match parseNotes (pyTrim cell) st.groupings with
      | some g => some { st with groupings := g }
      | none => none
    else extractCell st idx cell
  else some st

/-- Folds processColumn over the cells of a row, the index starting at
idx. -/
def procCells (st : RowSt) (idx : Nat) : List String → Option RowSt
  | [] => some st
  | c :: cs =>
    match processColumn st idx c with
    | none => none
    | some st1 => procCells st1 (idx + 1) cs

/-- State threaded across the rows of one term listing.  flushes records
the successive addClasses calls (batch of records plus the groupings
passed along). -/
structure PState where
  lastClass : Record
  courseClasses : List Record
  groupings : GroupMap
  flushes : List (List Record × GroupMap)
deriving DecidableEq, Repr

/-- Fresh per-row state built from the cross-row state. -/
def initRowSt (ps : PState) : RowSt :=
  { thisClass := {}, lastClass := ps.lastClass, isLastClass := false,
    isNote := false, newCourse := false, groupings := ps.groupings }

/-- Writes back the mutated record over the list tail (the Python record
object appended to courseClasses is the same object as lastClassCopy, so
continuation-row mutations are visible inside the list). -/
def replaceLast (l : List Record) (r : Record) : List Record :=
  if l = [] then l else l.dropLast ++ [r]

/-- Lines 408-550: one data row.  After the cells are scanned the row is
appended as a fresh record, or triggers a course-boundary flush (pushing
the accumulated batch with the current groupings and clearing both), or,
for a continuation row, updates the aliased last record in place. -/
def processDataRow (ps : PState) (cells : List String) : Option PState :=
  match procCells (initRowSt ps) 0 cells with
  | none => none
  | some st =>
    if st.newCourse = false ∧ st.isLastClass = false then
      some { lastClass := st.thisClass,
             courseClasses := ps.courseClasses ++ [st.thisClass],
             groupings := st.groupings,
             flushes := ps.flushes }
    else if st.newCourse = true then
      some { lastClass := st.thisClass,
             courseClasses := [st.thisClass],
             groupings := [],
             flushes := ps.flushes ++ [(ps.courseClasses, st.groupings)] }
    else
      some { lastClass := st.thisClass,
             courseClasses := replaceLast ps.courseClasses st.thisClass,
             groupings := st.groupings,
             flushes := ps.flushes }

/-- A row of the display table after HTML extraction. -/
inductive Row where
  | title
  | header
  | data (cells : List String)
deriving DecidableEq, Repr

/-- Lines 399-406: title and header rows are skipped. -/
def processRow (ps : PState) : Row → Option PState
  | .title => some ps
  | .header => some ps
  | .data cells => processDataRow ps cells

/-- Initial cross-row state (lines 386-394). -/
def initPState : PState :=
  { lastClass := {}, courseClasses := [], groupings := [], flushes := [] }

/-- MTRoyal.parseClassList (lines 352-553) restricted to its pure row
scan: folds over the rows and performs the final end-of-document flush of
the remaining batch. -/
def parseClassList (rows : List Row) : Option PState :=
  match rows.foldlM (fun ps r => processRow ps r) initPState with
  | none => none
  | some ps =>
    some { ps with flushes := ps.flushes ++ [(ps.courseClasses, ps.groupings)] }

/-! ## MTRoyal.addClasses -/

/-- A description-fetch task: [coursenum, subject, title] as enqueued at
line 606. -/
structure FetchTask where
  coursenum : String
  subject : String
  title : String
deriving DecidableEq, Repr

/-- A finalised section as upserted by addClasses: the record (its title
deleted), the resolved group list, the term and the fixed location. -/
structure SecOut where
  record : Record
  group : List PyVal
  term : Int
  location : String
deriving DecidableEq, Repr

/-- Lines 579-606: the loop body of addClasses.  hasDesc models
getCourseDescription (the store is not mutated during the batch).
Missing dict keys raise (none).  The retrievingDesc flag suppresses any
further description check once a task has been enqueued. -/
def addClassesGo (hasDesc : String → String → Bool) (groupings : GroupMap)
    (term : Int) :
    List Record → Bool → Option (List SecOut × List FetchTask)
  | [], _ => some ([], [])
  | r :: rs, retr =>
    match r.title, r.rtype, r.sect with
    | some thistitle, some ty, some sec =>
      let grp := (mapLookup groupings (ty ++ " " ++ sec)).getD [PyVal.pstr "1"]
      let out : SecOut :=
        { record := { r with title := none }, group := grp, term := term,
          location := "Main Campus" }
      if retr then
        match addClassesGo hasDesc groupings term rs true with
        | some (os, ts) => some (out :: os, ts)
        | none => none
      else
        match r.coursenum, r.subject with
        | some cn, some sb =>
          if hasDesc cn sb then
            match addClassesGo hasDesc groupings term rs false with
            | some (os, ts) => some (out :: os, ts)
            | none => none
          else
            match addClassesGo hasDesc groupings term rs true with
            | some (os, ts) =>
              some (out :: os, { coursenum := cn, subject := sb, title := thistitle } :: ts)
            | none => none
        | _, _ => none
    | _, _, _ => none

/-- MTRoyal.addClasses (lines 566-606). -/
def addClasses (hasDesc : String → String → Bool) (classlist : List Record)
    (groupings : GroupMap) (term : Int) :
    Option (List SecOut × List FetchTask) :=
  addClassesGo hasDesc groupings term classlist false

/-! ## CourseDescriptions: the fetch worker -/

/-- A course description document as upserted by processBody. -/
structure DescObj where
  subject : String
  coursenum : String
  name : String
  hours : Option String := none
  desc : Option String := none
  note : Option String := none
  prereq : Option String := none
  coreq : Option String := none
  antireq : Option String := none
deriving DecidableEq, Repr

/-- Line 685: the description object holding only the fields known from
the task. -/
def minimalDesc (t : FetchTask) : DescObj :=
  { subject := t.subject, coursenum := t.coursenum, name := t.title }

/-- Outcome of the requests.get call at line 749: a body with a success
flag, or an exception raised during the fetch. -/
inductive FetchOutcome where
  | ok (body : String) (statusOk : Bool)
  | exn
deriving DecidableEq, Repr

/-- CourseDescriptions.processBody (lines 677-735).  With error set it
builds the minimal object and upserts it without touching the body.  With
error clear it walks the HTML body; that walk (lines 689-733, driven by
BeautifulSoup) is abstracted as the parameter parse, whose none models an
exception raised inside it before the final upsert. -/
def processBody (parse : FetchTask → String → Option DescObj)
    (t : FetchTask) (body : String) (error : Bool) : Option DescObj :=
  if error then some (minimalDesc t)
  else parse t body

/-- Lines 742-759: handling of one dequeued task.  Returns the list of
course-description upserts the task performs.  An exception anywhere in
the try block is caught at line 756 and only logged, so nothing is
upserted for that task. -/
def runTask (parse : FetchTask → String → Option DescObj)
    (fr : FetchOutcome) (t : FetchTask) : List DescObj :=
  match fr with
  | .exn => []
  | .ok body statusOk =>
    let error := containsSub "page not found" body || !statusOk
    match processBody parse t body error with
    | some d => [d]
    | none => []

/-- CourseDescriptions.run (lines 737-762) over a fixed task list: every
task is handled in order, whatever the previous outcomes were. -/
def runWorker (parse : FetchTask → String → Option DescObj)
    (fetch : FetchTask → FetchOutcome) : List FetchTask → List DescObj
  | [] => []
  | t :: ts => runTask parse (fetch t) t ++ runWorker parse fetch ts

/-! ## Concrete inputs used by the theorems -/

/-- The worked note of the specification. -/
def c1note : String :=
  "Lecture 007 take one of tutorials 401-403 or 406-407 and one of labs 501-502"

/-- The grouping map the specification asserts for c1note. -/
def c1specMap : GroupMap :=
  [("LECTURE 007", [PyVal.pstr "1"]),
   ("TUTORIAL 401", [PyVal.pstr "2"]), ("TUTORIAL 402", [PyVal.pstr "2"]),
   ("TUTORIAL 403", [PyVal.pstr "2"]), ("TUTORIAL 406", [PyVal.pstr "2"]),
   ("TUTORIAL 407", [PyVal.pstr "2"]),
   ("LAB 501", [PyVal.pstr "3"]), ("LAB 502", [PyVal.pstr "3"])]

/-- The grouping map the code actually produces for c1note on an empty map. -/
def c1actual : GroupMap :=
  [("LEC 007", [PyVal.pint 1]),
   ("TUT 401", [PyVal.pstr "1"]), ("TUT 402", [PyVal.pstr "1"]),
   ("TUT 403", [PyVal.pstr "1"]), ("TUT 406", [PyVal.pstr "1"]),
   ("TUT 407", [PyVal.pstr "1"]),
   ("LAB 501", [PyVal.pstr "1"]), ("LAB 502", [PyVal.pstr "1"])]

/-- A starting map that already assigns the calling class of a note. -/
def c4start : GroupMap := [("LEC 007", [PyVal.pstr "5"])]

/-- The map after parsing a note whose calling class is already assigned. -/
def c4after : GroupMap :=
  [("LEC 007", [PyVal.pint 6]), ("LAB 501", [PyVal.pstr "6"])]

/-- A primary data row of course 2101 with one meeting pattern. -/
def rowA : Row := Row.data
  ["", "20001", "ACCT", "2101", "001", "", "Intro Acct", "LEC",
   "MW", "01:00 pm-01:50 pm", "", "", "5", "", "John  Smith", "", "A101", ""]

/-- A continuation row of course 2101 carrying a grouping note. -/
def rowB : Row := Row.data
  [NBSP, "", "", "", "", "", "Note", "Lecture 001 take lab 501"]

/-- A primary data row of a different course 2102, declaring a course
boundary. -/
def rowC : Row := Row.data
  ["", "20002", "ACCT", "2102", "001", "", "Acct II", "LEC",
   "TR", "02:00 pm-03:50 pm", "", "", "0", "", "Jones", "", "B202", ""]

/-- The grouping map produced by the note row of rowB. -/
def gNote : GroupMap := [("LEC 001", [PyVal.pint 1]), ("LAB 501", [PyVal.pstr "1"])]

/-! ## Decimal digits and round trips -/

/-- The ten decimal digit characters. -/
def digitList : List Char := ['0', '1', '2', '3', '4', '5', '6', '7', '8', '9']

lemma digitChar_mem_digitList (n : Nat) (h : n < 10) : digitChar n ∈ digitList := by
  interval_cases n <;> decide

lemma natDigitsGo_append (fuel : Nat) :
    ∀ n acc, natDigitsGo fuel n acc = natDigitsGo fuel n [] ++ acc := by
  induction fuel with
  | zero => intro n acc; rfl
  | succ fuel ih =>
    intro n acc
    by_cases h : n < 10
    · simp [natDigitsGo, h]
    · simp only [natDigitsGo, if_neg h]
      rw [ih (n / 10), ih (n / 10) [digitChar (n % 10)], List.append_assoc]
      simp

lemma natDigitsGo_mem (fuel : Nat) :
    ∀ n, n ≤ fuel → ∀ c ∈ natDigitsGo fuel n [], c ∈ digitList := by
  induction fuel with
  | zero =>
    intro n hn c hc
    interval_cases n
    simp only [natDigitsGo, List.mem_singleton] at hc
    subst hc
    decide
  | succ fuel ih =>
    intro n hn c hc
    by_cases h : n < 10
    · simp only [natDigitsGo, if_pos h, List.mem_singleton] at hc
      subst hc
      exact digitChar_mem_digitList n h
    · simp only [natDigitsGo, if_neg h] at hc
      rw [natDigitsGo_append] at hc
      have hdiv : n / 10 ≤ fuel := by
        have := Nat.div_lt_self (show 0 < n by omega) (show 1 < 10 by omega)
        omega
      rcases List.mem_append.mp hc with h1 | h1
      · exact ih (n / 10) hdiv c h1
      · simp only [List.mem_singleton] at h1
        subst h1
        exact digitChar_mem_digitList (n % 10) (Nat.mod_lt n (by omega))

lemma natDigits_mem (n : Nat) : ∀ c ∈ natDigits n, c ∈ digitList :=
  natDigitsGo_mem n n le_rfl

lemma natDigitsGo_ne_nil (fuel : Nat) :
    ∀ n acc, natDigitsGo fuel n acc ≠ [] := by
  induction fuel with
  | zero => intro n acc; simp [natDigitsGo]
  | succ fuel ih =>
    intro n acc
    by_cases h : n < 10
    · simp [natDigitsGo, h]
    · simp only [natDigitsGo, if_neg h]
      exact ih (n / 10) (digitChar (n % 10) :: acc)

lemma natDigits_ne_nil (n : Nat) : natDigits n ≠ [] :=
  natDigitsGo_ne_nil n n []

lemma digitVal_digitChar (n : Nat) (h : n < 10) : digitVal (digitChar n) = n := by
  interval_cases n <;> decide

lemma natDigitsGo_foldl (fuel : Nat) :
    ∀ n, n ≤ fuel →
      (natDigitsGo fuel n []).foldl (fun a c => a * 10 + digitVal c) 0 = n := by
  induction fuel with
  | zero =>
    intro n hn
    interval_cases n
    decide
  | succ fuel ih =>
    intro n hn
    by_cases h : n < 10
    · simp only [natDigitsGo, if_pos h, List.foldl_cons, List.foldl_nil]
      rw [digitVal_digitChar n h]
      omega
    · simp only [natDigitsGo, if_neg h]
      have hdiv : n / 10 ≤ fuel := by
        have := Nat.div_lt_self (show 0 < n by omega) (show 1 < 10 by omega)
        omega
      rw [natDigitsGo_append, List.foldl_append, ih (n / 10) hdiv]
      simp only [List.foldl_cons, List.foldl_nil]
      rw [digitVal_digitChar (n % 10) (Nat.mod_lt n (by omega))]
      omega

lemma natDigits_foldl (n : Nat) :
    (natDigits n).foldl (fun a c => a * 10 + digitVal c) 0 = n :=
  natDigitsGo_foldl n n le_rfl

lemma parseDigits_natDigits (n : Nat) : parseDigits (natDigits n) = some n := by
  unfold parseDigits
  rw [if_pos]
  · exact congrArg some (natDigits_foldl n)
  · refine ⟨natDigits_ne_nil n, ?_⟩
    rw [List.all_eq_true]
    intro c hc
    have h := natDigits_mem n c hc
    fin_cases h <;> decide

lemma dropWhile_eq_self_of_not (p : Char → Bool) (l : List Char)
    (h : ∀ c ∈ l, p c = false) : l.dropWhile p = l := by
  cases l with
  | nil => rfl
  | cons c cs => simp [List.dropWhile, h c (by simp)]

lemma trimL_eq_self (l : List Char) (h : ∀ c ∈ l, isPyWs c = false) :
    trimL l = l := by
  unfold trimL
  rw [dropWhile_eq_self_of_not _ _ h,
      dropWhile_eq_self_of_not _ _ (fun c hc => h c (List.mem_reverse.mp hc)),
      List.reverse_reverse]

lemma digit_not_ws : ∀ c ∈ digitList, isPyWs c = false := by decide

lemma trimL_natDigits (n : Nat) : trimL (natDigits n) = natDigits n :=
  trimL_eq_self _ (fun c hc => digit_not_ws c (natDigits_mem n c hc))

lemma parsePyInt_natToStr (n : Nat) : parsePyInt (natToStr n) = some (n : Int) := by
  obtain ⟨c, cs, hccs⟩ := List.exists_cons_of_ne_nil (natDigits_ne_nil n)
  have hcmem : c ∈ digitList := natDigits_mem n c (by rw [hccs]; simp)
  have hminus : ¬ c = '-' := by fin_cases hcmem <;> decide
  have hplus : ¬ c = '+' := by fin_cases hcmem <;> decide
  unfold parsePyInt natToStr
  have hd : (String.mk (natDigits n)).data = natDigits n := rfl
  rw [hd, trimL_natDigits, hccs]
  simp only [if_neg hminus, if_neg hplus]
  rw [← hccs, parseDigits_natDigits]
  rfl

/-! ## Splitting a valid range string -/

lemma splitCh_of_not_mem (sep : Char) (l : List Char) (h : sep ∉ l) :
    splitCh sep l = [l] := by
  induction l with
  | nil => rfl
  | cons c cs ih =>
    rw [splitCh]
    have hc : ¬ c = sep := by
      intro hcs
      exact h (by rw [hcs]; simp)
    rw [if_neg hc, ih (fun hm => h (by simp [hm]))]

lemma splitCh_append (sep : Char) (l1 l2 : List Char) (h : sep ∉ l1) :
    splitCh sep (l1 ++ sep :: l2) = l1 :: splitCh sep l2 := by
  induction l1 with
  | nil =>
    rw [List.nil_append, splitCh, if_pos rfl]
  | cons c cs ih =>
    rw [List.cons_append, splitCh]
    have hc : ¬ c = sep := by
      intro hcs
      exact h (by rw [hcs]; simp)
    rw [if_neg hc, ih (fun hm => h (by simp [hm]))]

lemma dash_not_digit (n : Nat) : '-' ∉ natDigits n := by
  intro hm
  exact absurd (natDigits_mem n '-' hm) (by decide)

/-- The valid range string A-B built from two natural numbers. -/
def rangeStr (A B : Nat) : String := ⟨natDigits A ++ '-' :: natDigits B⟩

lemma intToStr_ofNat (m : Nat) : intToStr ((m : Nat) : Int) = natToStr m := by
  unfold intToStr natToStr
  rw [if_neg (by omega)]
  simp

/-- C7.  For every valid range string A-B with natural numbers A and B,
classRange returns exactly the ordered decimal strings of the integers
from A to B inclusive, and for A > B it returns the empty list. -/
theorem classRange_correct (A B : Nat) :
    classRange (rangeStr A B) =
      some ((List.range (B + 1 - A)).map (fun i => natToStr (A + i))) ∧
    (B < A → classRange (rangeStr A B) = some []) := by
  have hsplit : splitChStr '-' (rangeStr A B) =
      [natToStr A, natToStr B] := by
    unfold splitChStr rangeStr natToStr
    rw [show (String.mk (natDigits A ++ '-' :: natDigits B)).data
          = natDigits A ++ '-' :: natDigits B from rfl]
    rw [splitCh_append '-' _ _ (dash_not_digit A),
        splitCh_of_not_mem '-' _ (dash_not_digit B)]
    rfl
  have hmain : classRange (rangeStr A B) =
      some ((List.range (B + 1 - A)).map (fun i => natToStr (A + i))) := by
    unfold classRange
    rw [hsplit]
    simp only [parsePyInt_natToStr]
    congr 1
    have htn : (((B : Int) + 1 - (A : Int)).toNat) = B + 1 - A := by omega
    rw [htn]
    apply List.map_congr_left
    intro i hi
    rw [show ((A : Int) + (i : Int)) = (((A + i : Nat) : Int)) by push_cast; ring,
        intToStr_ofNat]
  refine ⟨hmain, fun hlt => ?_⟩
  rw [hmain]
  have : B + 1 - A = 0 := by omega
  rw [this]
  rfl

/-- C7 witness: the range 2-4 expands to the three strings and the
reversed range 5-3 is empty. -/
theorem classRange_correct_witness :
    classRange (rangeStr 2 4) = some ["2", "3", "4"] ∧
    classRange (rangeStr 5 3) = some [] := by
  constructor
  · rw [(classRange_correct 2 4).1]
    decide
  · exact (classRange_correct 5 3).2 (by omega)

/-! ## Grouping-map lemmas -/

lemma mapLookup_mapSet_self (m : GroupMap) (k : String) (l : List PyVal) :
    mapLookup (mapSet m k l) k = some l := by
  induction m with
  | nil => simp [mapSet, mapLookup]
  | cons kv rest ih =>
    obtain ⟨k0, l0⟩ := kv
    by_cases h : k0 = k
    · simp [mapSet, mapLookup, h]
    · simp [mapSet, mapLookup, h, ih]

lemma mapLookup_mapSet_ne (m : GroupMap) (k key : String) (l : List PyVal)
    (h : ¬ key = k) : mapLookup (mapSet m k l) key = mapLookup m key := by
  induction m with
  | nil =>
    simp only [mapSet, mapLookup]
    rw [if_neg (fun hh => h hh.symm)]
  | cons kv rest ih =>
    obtain ⟨k0, l0⟩ := kv
    by_cases h0 : k0 = k
    · subst h0
      simp only [mapSet, if_pos rfl, mapLookup]
      rw [if_neg (fun hh => h hh.symm), if_neg (fun hh => h hh.symm)]
    · simp only [mapSet, if_neg h0, mapLookup]
      by_cases hk : k0 = key
      · rw [if_pos hk, if_pos hk]
      · rw [if_neg hk, if_neg hk, ih]

lemma pairMem_mapSet_cases (m : GroupMap) (k key : String) (l : List PyVal)
    (v : PyVal) (h : pairMem (mapSet m k l) key v) :
    pairMem m key v ∨ (key = k ∧ v ∈ l) := by
  obtain ⟨l1, hl1, hv⟩ := h
  by_cases hk : key = k
  · subst hk
    rw [mapLookup_mapSet_self] at hl1
    right
    refine ⟨rfl, ?_⟩
    rw [Option.some_inj.mp hl1]
    exact hv
  · rw [mapLookup_mapSet_ne m k key l hk] at hl1
    exact Or.inl ⟨l1, hl1, hv⟩

lemma pairMem_mapSet_ne (m : GroupMap) (k key : String) (l : List PyVal)
    (v : PyVal) (hk : ¬ key = k) (h : pairMem m key v) :
    pairMem (mapSet m k l) key v := by
  obtain ⟨l1, hl1, hv⟩ := h
  exact ⟨l1, by rw [mapLookup_mapSet_ne m k key l hk]; exact hl1, hv⟩

lemma pairMem_addGroupVal (m : GroupMap) (k : String) (v0 : PyVal)
    (key : String) (v : PyVal) (h : pairMem m key v) :
    pairMem (addGroupVal m k v0) key v := by
  unfold addGroupVal
  by_cases hk : key = k
  · subst hk
    obtain ⟨l1, hl1, hv⟩ := h
    rw [hl1]
    exact ⟨l1 ++ [v0], mapLookup_mapSet_self m key (l1 ++ [v0]), by simp [hv]⟩
  · cases hl : mapLookup m k with
    | some l => exact pairMem_mapSet_ne m k key (l ++ [v0]) v hk h
    | none => exact pairMem_mapSet_ne m k key [v0] v hk h

lemma pairMem_addGroupVal_cases (m : GroupMap) (k : String) (v0 : PyVal)
    (key : String) (v : PyVal) (h : pairMem (addGroupVal m k v0) key v) :
    pairMem m key v ∨ v = v0 := by
  unfold addGroupVal at h
  cases hl : mapLookup m k with
  | some l =>
    rw [hl] at h
    rcases pairMem_mapSet_cases m k key (l ++ [v0]) v h with h1 | ⟨hkk, h1⟩
    · exact Or.inl h1
    · rcases List.mem_append.mp h1 with h2 | h2
      · subst hkk
        exact Or.inl ⟨l, hl, h2⟩
      · simp only [List.mem_singleton] at h2
        exact Or.inr h2
  | none =>
    rw [hl] at h
    rcases pairMem_mapSet_cases m k key [v0] v h with h1 | ⟨hkk, h1⟩
    · exact Or.inl h1
    · simp only [List.mem_singleton] at h1
      exact Or.inr h1

lemma pairMem_foldl_addGroupVal (ty : String) (gv : PyVal) :
    ∀ (classes : List String) (d : GroupMap) (key : String) (v : PyVal),
      pairMem d key v →
      pairMem
        (classes.foldl (fun d classv => addGroupVal d (ty ++ " " ++ pyTrim classv) gv) d)
        key v := by
  intro classes
  induction classes with
  | nil => intro d key v h; exact h
  | cons c cs ih =>
    intro d key v h
    exact ih _ key v (pairMem_addGroupVal d _ gv key v h)

lemma pairMem_foldl_addGroupVal_cases (ty : String) (gv : PyVal) :
    ∀ (classes : List String) (d : GroupMap) (key : String) (v : PyVal),
      pairMem
        (classes.foldl (fun d classv => addGroupVal d (ty ++ " " ++ pyTrim classv) gv) d)
        key v →
      pairMem d key v ∨ v = gv := by
  intro classes
  induction classes with
  | nil => intro d key v h; exact Or.inl h
  | cons c cs ih =>
    intro d key v h
    rcases ih _ key v h with h1 | h1
    · exact pairMem_addGroupVal_cases d _ gv key v h1
    · exact Or.inr h1

lemma processNoteFragment_preserves (group : String) (d d2 : GroupMap)
    (n : Nat) (ty : String) (h : processNoteFragment group d n ty = some d2)
    (key : String) (v : PyVal) (hv : pairMem d key v) : pairMem d2 key v := by
  unfold processNoteFragment at h
  generalize hl : splitSubStr " or " group = gs at h
  clear hl
  induction gs generalizing d with
  | nil =>
    simp only [List.foldlM_nil] at h
    rw [← Option.some_inj.mp h]
    exact hv
  | cons g gs ih =>
    simp only [List.foldlM_cons] at h
    cases hcl : noteClasses g with
    | none => simp [hcl] at h
    | some classes =>
      simp only [hcl, Option.bind_eq_bind, Option.some_bind] at h
      exact ih _ (pairMem_foldl_addGroupVal ty _ classes d key v hv) h

lemma processNoteFragment_cases (group : String) (d d2 : GroupMap)
    (n : Nat) (ty : String) (h : processNoteFragment group d n ty = some d2)
    (key : String) (v : PyVal) (hv : pairMem d2 key v) :
    pairMem d key v ∨ v = PyVal.pstr (natToStr (n - 1)) := by
  unfold processNoteFragment at h
  generalize hl : splitSubStr " or " group = gs at h
  clear hl
  induction gs generalizing d with
  | nil =>
    simp only [List.foldlM_nil] at h
    rw [← Option.some_inj.mp h] at hv
    exact Or.inl hv
  | cons g gs ih =>
    simp only [List.foldlM_cons] at h
    cases hcl : noteClasses g with
    | none => simp [hcl] at h
    | some classes =>
      simp only [hcl, Option.bind_eq_bind, Option.some_bind] at h
      rcases ih _ h with h1 | h1
      · exact pairMem_foldl_addGroupVal_cases ty _ classes d key v h1
      · exact Or.inr h1

lemma processClause_preserves (cg : String) (d d2 : GroupMap) (n : Nat)
    (h : processClause cg d n = some d2)
    (key : String) (v : PyVal) (hv : pairMem d key v) : pairMem d2 key v := by
  simp only [processClause] at h
  split at h
  · rw [← Option.some_inj.mp h]
    exact hv
  · exact processNoteFragment_preserves _ d d2 n _ h key v hv

lemma processClause_cases (cg : String) (d d2 : GroupMap) (n : Nat)
    (h : processClause cg d n = some d2)
    (key : String) (v : PyVal) (hv : pairMem d2 key v) :
    pairMem d key v ∨ v = PyVal.pstr (natToStr (n - 1)) := by
  simp only [processClause] at h
  split at h
  · rw [← Option.some_inj.mp h] at hv
    exact Or.inl hv
  · exact processNoteFragment_cases _ d d2 n _ h key v hv

lemma foldlM_clauses_preserves (n : Nat) :
    ∀ (cgs : List String) (d d2 : GroupMap),
      cgs.foldlM (fun d cg => processClause cg d n) d = some d2 →
      ∀ (key : String) (v : PyVal), pairMem d key v → pairMem d2 key v := by
  intro cgs
  induction cgs with
  | nil =>
    intro d d2 h key v hv
    simp only [List.foldlM_nil] at h
    rw [← Option.some_inj.mp h]
    exact hv
  | cons cg cgs ih =>
    intro d d2 h key v hv
    simp only [List.foldlM_cons] at h
    cases hc : processClause cg d n with
    | none => simp [hc] at h
    | some d1 =>
      simp only [hc, Option.bind_eq_bind, Option.some_bind] at h
      exact ih d1 d2 h key v (processClause_preserves cg d d1 n hc key v hv)

lemma foldlM_clauses_cases (n : Nat) :
    ∀ (cgs : List String) (d d2 : GroupMap),
      cgs.foldlM (fun d cg => processClause cg d n) d = some d2 →
      ∀ (key : String) (v : PyVal), pairMem d2 key v →
        pairMem d key v ∨ v = PyVal.pstr (natToStr (n - 1)) := by
  intro cgs
  induction cgs with
  | nil =>
    intro d d2 h key v hv
    simp only [List.foldlM_nil] at h
    rw [← Option.some_inj.mp h] at hv
    exact Or.inl hv
  | cons cg cgs ih =>
    intro d d2 h key v hv
    simp only [List.foldlM_cons] at h
    cases hc : processClause cg d n with
    | none => simp [hc] at h
    | some d1 =>
      simp only [hc, Option.bind_eq_bind, Option.some_bind] at h
      rcases ih d1 d2 h key v hv with h1 | h1
      · exact processClause_cases cg d d1 n hc key v h1
      · exact Or.inr h1

/-- Every pair of the starting map whose key differs from the calling
class of the note survives parseNotes. -/
lemma parseNotes_preserves_aux (note : String) (m m2 : GroupMap)
    (h : parseNotes note m = some m2) (key : String) (v : PyVal)
    (hk : ∀ c, noteCalling note = some c → ¬ key = c)
    (hv : pairMem m key v) : pairMem m2 key v := by
  unfold parseNotes at h
  cases hmx : maxGroupNum m with
  | none => rw [hmx] at h; exact absurd h (by simp)
  | some mx =>
    rw [hmx] at h
    simp only at h
    cases hmn : matchNote note with
    | none =>
      rw [hmn] at h
      rw [← Option.some_inj.mp h]
      exact hv
    | some r =>
      obtain ⟨g0, g1, g2⟩ := r
      rw [hmn] at h
      simp only at h
      cases hinv : invLookup (pyUpper g0) with
      | none =>
        rw [hinv] at h
        rw [← Option.some_inj.mp h]
        exact hv
      | some code =>
        rw [hinv] at h
        simp only at h
        have hcall : noteCalling note = some (code ++ " " ++ g1) := by
          unfold noteCalling
          rw [hmn]
          simp only
          rw [hinv]
        have hne : ¬ key = code ++ " " ++ g1 := hk _ hcall
        exact foldlM_clauses_preserves (mx.toNat + 1 + 1) _ _ m2 h key v
          (pairMem_mapSet_ne m (code ++ " " ++ g1) key _ v hne hv)

/-- Every pair of the map after parseNotes is an old pair, the fresh int
id of the calling class, or the fresh string id appended to the clause
classes (both equal to one above the previous maximum). -/
lemma parseNotes_cases_aux (note : String) (m m2 : GroupMap) (mx : Int)
    (hmx : maxGroupNum m = some mx) (h : parseNotes note m = some m2)
    (key : String) (v : PyVal) (hv : pairMem m2 key v) :
    pairMem m key v ∨ v = PyVal.pint (Int.ofNat (mx.toNat + 1)) ∨
      v = PyVal.pstr (natToStr (mx.toNat + 1)) := by
  unfold parseNotes at h
  rw [hmx] at h
  simp only at h
  cases hmn : matchNote note with
  | none =>
    rw [hmn] at h
    rw [← Option.some_inj.mp h] at hv
    exact Or.inl hv
  | some r =>
    obtain ⟨g0, g1, g2⟩ := r
    rw [hmn] at h
    simp only at h
    cases hinv : invLookup (pyUpper g0) with
    | none =>
      rw [hinv] at h
      rw [← Option.some_inj.mp h] at hv
      exact Or.inl hv
    | some code =>
      rw [hinv] at h
      simp only at h
      rcases foldlM_clauses_cases (mx.toNat + 1 + 1) _ _ m2 h key v hv with h1 | h1
      · rcases pairMem_mapSet_cases m (code ++ " " ++ g1) key _ v h1 with h2 | ⟨_, h2⟩
        · exact Or.inl h2
        · simp only [List.mem_singleton] at h2
          exact Or.inr (Or.inl h2)
      · right
        right
        rw [h1]
        rfl

/-! ## Claims C1 and C4 -/

/-- C1 counterexample.  On the worked note against an empty map the code
produces keys made from the short instruction codes ("LEC 007",
"TUT 401", ...), not the long names the claim asserts; the calling class
holds the bare integer 1, not a string; and the clause classes hold the
string "1" rather than a fresh id per clause, so the asserted map is not
the computed one. -/
theorem parseNotes_example_counterexample :
    parseNotes c1note [] = some c1actual ∧
    mapLookup c1actual "LECTURE 007" = none ∧
    mapLookup c1actual "TUTORIAL 401" = none ∧
    mapLookup c1actual "LEC 007" = some [PyVal.pint 1] ∧
    mapLookup c1actual "TUT 401" = some [PyVal.pstr "1"] ∧
    ¬ c1actual = c1specMap := by
  refine ⟨by decide, by decide, by decide, by decide, by decide, by decide⟩

/-- C1 (amended).  The worked note against an empty map yields the map
assigning "LEC 007" the singleton integer list [1] and every clause class
"TUT 401" ... "TUT 407", "LAB 501", "LAB 502" the string list ["1"]; and
in general every pair added by this note on top of any starting map
carries either the integer base or the string of base, where base is one
above the maximum existing id — the calling class is never given base+1
and ids are not all strings. -/
theorem parseNotes_example_amended :
    parseNotes c1note [] = some c1actual ∧
    (∀ (m m2 : GroupMap) (mx : Int), maxGroupNum m = some mx →
      parseNotes c1note m = some m2 →
      ∀ (key : String) (v : PyVal), pairMem m2 key v →
        pairMem m key v ∨ v = PyVal.pint (Int.ofNat (mx.toNat + 1)) ∨
          v = PyVal.pstr (natToStr (mx.toNat + 1))) :=
  ⟨by decide,
   fun m m2 mx hmx h key v hv => parseNotes_cases_aux c1note m m2 mx hmx h key v hv⟩

/-- C1 witness: the second part applied to the empty starting map and the
pair ("TUT 401", "1") of the computed result. -/
theorem parseNotes_example_amended_witness :
    pairMem ([] : GroupMap) "TUT 401" (PyVal.pstr "1") ∨
      PyVal.pstr "1" = PyVal.pint (Int.ofNat ((0 : Int).toNat + 1)) ∨
      PyVal.pstr "1" = PyVal.pstr (natToStr ((0 : Int).toNat + 1)) :=
  parseNotes_example_amended.2 [] c1actual 0 (by decide)
    parseNotes_example_amended.1 "TUT 401" (PyVal.pstr "1")
    ⟨[PyVal.pstr "1"], by decide, by decide⟩

/-- C4 counterexample.  Parsing a note whose calling class "LEC 007"
already holds the id "5" replaces that list with the fresh integer id, so
the previously present pair ("LEC 007", "5") is removed by parseNotes. -/
theorem parseNotes_monotone_counterexample :
    parseNotes "Lecture 007 take lab 501" c4start = some c4after ∧
    pairMem c4start "LEC 007" (PyVal.pstr "5") ∧
    ¬ pairMem c4after "LEC 007" (PyVal.pstr "5") := by
  refine ⟨by decide, ⟨[PyVal.pstr "5"], by decide, by decide⟩, ?_⟩
  rintro ⟨l, hl, hv⟩
  have h6 : mapLookup c4after "LEC 007" = some [PyVal.pint 6] := by decide
  rw [h6] at hl
  rw [← Option.some_inj.mp hl] at hv
  exact absurd hv (by decide)

/-- C4 (amended).  parseNotes is monotone on every key other than the
calling class of the note: every (key, id) pair present before the call
is still present after it, except that the pairs of the calling class
itself are replaced by the fresh singleton. -/
theorem parseNotes_monotone_amended (note : String) (m m2 : GroupMap)
    (key : String) (v : PyVal)
    (h : parseNotes note m = some m2)
    (hk : ∀ c, noteCalling note = some c → ¬ key = c)
    (hv : pairMem m key v) : pairMem m2 key v :=
  parseNotes_preserves_aux note m m2 h key v hk hv

/-- C4 witness: a pair of a non-calling key survives a concrete note. -/
theorem parseNotes_monotone_amended_witness :
    pairMem [("TUT 301", [PyVal.pstr "2"]), ("LEC 007", [PyVal.pint 3]),
      ("LAB 501", [PyVal.pstr "3"])] "TUT 301" (PyVal.pstr "2") :=
  parseNotes_monotone_amended "Lecture 007 take lab 501"
    [("TUT 301", [PyVal.pstr "2"])]
    [("TUT 301", [PyVal.pstr "2"]), ("LEC 007", [PyVal.pint 3]),
      ("LAB 501", [PyVal.pstr "3"])]
    "TUT 301" (PyVal.pstr "2")
    (by decide)
    (fun c hc => by
      have h7 : noteCalling "Lecture 007 take lab 501" = some "LEC 007" := by
        decide
      rw [h7] at hc
      rw [← Option.some_inj.mp hc]
      decide)
    ⟨[PyVal.pstr "2"], by decide, by decide⟩

/-! ## Claims C6 and C9 -/

/-- C6.  Feeding the same teacher name twice with inconsistent internal
whitespace to the teacher-column handler stores exactly one entry, in
either order, because both the raw trimmed text and its
whitespace-collapsed copy are checked against the stored list before the
collapsed copy is appended. -/
theorem addTeacher_dedup :
    addTeacher "John Smith" (addTeacher "John  Smith" []) = ["John Smith"] ∧
    addTeacher "John  Smith" (addTeacher "John Smith" []) = ["John Smith"] := by
  refine ⟨by decide, by decide⟩

/-- C9 counterexample.  When the fetch raises, the handler of one task
catches the exception at line 756 and only logs: no course description at
all is upserted for that task, in particular not the minimal one the
claim asserts. -/
theorem runTask_exception_counterexample :
    ¬ minimalDesc { coursenum := "1101", subject := "ACCT", title := "Intro" } ∈
        runTask (fun _ _ => none) FetchOutcome.exn
          { coursenum := "1101", subject := "ACCT", title := "Intro" } := by
  decide

/-- C9 (amended).  An exception raised during the fetch or the body walk
is caught per task and never terminates the worker, which always proceeds
to the next task; but nothing is upserted for the failed task — the
minimal description is upserted exactly on a soft error (failing status
or a not-found marker) reached without an exception. -/
theorem runTask_exception_amended
    (parse : FetchTask → String → Option DescObj)
    (fetch : FetchTask → FetchOutcome) (t : FetchTask) (ts : List FetchTask)
    (body : String) :
    runTask parse FetchOutcome.exn t = [] ∧
    runTask parse (FetchOutcome.ok body false) t = [minimalDesc t] ∧
    runWorker parse fetch (t :: ts) =
      runTask parse (fetch t) t ++ runWorker parse fetch ts := by
  refine ⟨rfl, ?_, rfl⟩
  unfold runTask processBody
  simp

/-! ## Invariants of the column scan -/

lemma setStrField_status (r : Record) (name : String) (v : String)
    (h : ¬ name = "status") : (setStrField r name v).status = r.status := by
  unfold setStrField
  split_ifs <;> simp_all

lemma setStrField_inv (r : Record) (name : String) (v : String) :
    (setStrField r name v).times = r.times ∧
    (setStrField r name v).teachers = r.teachers := by
  unfold setStrField
  split_ifs <;> simp_all

lemma setIntField_inv (r : Record) (name : String) (v : Int) :
    (setIntField r name v).status = r.status ∧
    (setIntField r name v).times = r.times := by
  unfold setIntField
  split_ifs <;> simp_all

lemma columnKeys_no_status (idx : Nat) (kd : CKind) (hi : ¬ idx = 12) :
    ¬ columnKeys.get? idx = some (some ("status", kd)) := by
  intro heq
  rcases Nat.lt_or_ge idx 18 with hlt | hge
  · interval_cases idx <;>
      first
        | exact absurd rfl hi
        | (cases kd <;> exact absurd heq (by decide))
  · have hnone : columnKeys.get? idx = none := by
      apply List.get?_eq_none.mpr
      simp only [columnKeys, List.length]
      omega
    rw [hnone] at heq
    exact absurd heq (by simp)

lemma extractCell_inv (st : RowSt) (idx : Nat) (cell : String) (st2 : RowSt)
    (h : extractCell st idx cell = some st2) :
    st2.isLastClass = st.isLastClass ∧ st2.isNote = st.isNote ∧
    st2.lastClass = st.lastClass ∧ st2.groupings = st.groupings ∧
    (st.isLastClass = true → st2.newCourse = st.newCourse ∧
      st2.thisClass.status = st.thisClass.status) ∧
    (¬ idx = 3 → st2.newCourse = st.newCourse) ∧
    (¬ idx = 0 → ¬ idx = 12 → st2.thisClass.status = st.thisClass.status) := by
  simp only [extractCell] at h
  split at h
  · rename_i ck heq
    split_ifs at h with h0 hC h3 h8 h9 h12 h14 h16 hlast
    · rw [Option.some_inj] at h
      subst h
      refine ⟨rfl, rfl, rfl, rfl, ?_, fun _ => rfl, ?_⟩
      · intro hl
        exact absurd hl (by simp [h0.2])
      · intro hi0
        exact absurd h0.1 hi0
    · rw [Option.some_inj] at h
      subst h
      exact ⟨rfl, rfl, rfl, rfl, fun _ => ⟨rfl, rfl⟩, fun _ => rfl,
        fun _ _ => rfl⟩
    · rw [Option.some_inj] at h
      subst h
      refine ⟨rfl, rfl, rfl, rfl, ?_, ?_, fun _ _ => rfl⟩
      · intro hl
        exact absurd hl (by simp [h3.2])
      · intro hi3
        exact absurd h3.1 hi3
    · rw [Option.some_inj] at h
      subst h
      exact ⟨rfl, rfl, rfl, rfl, fun _ => ⟨rfl, rfl⟩, fun _ => rfl,
        fun _ _ => rfl⟩
    · split at h
      · exact absurd h (by simp)
      · rw [Option.some_inj] at h
        subst h
        exact ⟨rfl, rfl, rfl, rfl, fun _ => ⟨rfl, rfl⟩, fun _ => rfl,
          fun _ _ => rfl⟩
    · rw [Option.some_inj] at h
      subst h
      refine ⟨rfl, rfl, rfl, rfl, ?_, fun _ => rfl, ?_⟩
      · intro hl
        exact absurd hl (by simp [h12.2])
      · intro _ hi12
        exact absurd h12.1 hi12
    · rw [Option.some_inj] at h
      subst h
      exact ⟨rfl, rfl, rfl, rfl, fun _ => ⟨rfl, rfl⟩, fun _ => rfl,
        fun _ _ => rfl⟩
    · rw [Option.some_inj] at h
      subst h
      exact ⟨rfl, rfl, rfl, rfl, fun _ => ⟨rfl, rfl⟩, fun _ => rfl,
        fun _ _ => rfl⟩
    · split at h
      · rw [Option.map_eq_some'] at h
        obtain ⟨v, _, hv⟩ := h
        subst hv
        refine ⟨rfl, rfl, rfl, rfl, ?_, fun _ => rfl, ?_⟩
        · intro hl
          exact absurd hl (by simp [hlast])
        · intro _ _
          exact (setIntField_inv st.thisClass ck.1 v).1
      · rw [Option.some_inj] at h
        subst h
        refine ⟨rfl, rfl, rfl, rfl, ?_, fun _ => rfl, ?_⟩
        · intro hl
          exact absurd hl (by simp [hlast])
        · intro _ hi12
          refine setStrField_status st.thisClass ck.1 (pyTrim cell) ?_
          intro hnm
          obtain ⟨nm, kd⟩ := ck
          simp only at hnm
          subst hnm
          exact columnKeys_no_status idx kd hi12 heq
    · rw [Option.some_inj] at h
      subst h
      exact ⟨rfl, rfl, rfl, rfl, fun _ => ⟨rfl, rfl⟩, fun _ => rfl,
        fun _ _ => rfl⟩
  · rw [Option.some_inj] at h
    subst h
    exact ⟨rfl, rfl, rfl, rfl, fun _ => ⟨rfl, rfl⟩, fun _ => rfl,
      fun _ _ => rfl⟩

lemma extractCell_twelve (st : RowSt) (cell : String) (st2 : RowSt)
    (hl : st.isLastClass = false)
    (h : extractCell st 12 cell = some st2) :
    st2.thisClass.status = seatsUpdate (pyTrim cell) st.thisClass.status := by
  simp [extractCell, columnKeys, hl] at h
  rw [← h]

lemma processColumn_zero (st : RowSt) (cell : String) :
    processColumn st 0 cell =
      some (if cell = NBSP then
              { st with isLastClass := true, thisClass := st.lastClass }
            else st) := by
  by_cases h : cell = NBSP <;> simp [processColumn, h]

lemma processColumn_inv (st : RowSt) (idx : Nat) (cell : String) (st2 : RowSt)
    (h : processColumn st idx cell = some st2) (hidx : 0 < idx) :
    st2.isLastClass = st.isLastClass ∧ st2.lastClass = st.lastClass ∧
    (st.isLastClass = false → st.isNote = false →
      st2.isNote = false ∧ st2.groupings = st.groupings) ∧
    (¬ idx = 12 → st2.thisClass.status = st.thisClass.status) ∧
    (st.isLastClass = true → st2.newCourse = st.newCourse ∧
      st2.thisClass.status = st.thisClass.status) ∧
    (idx = 12 → st.isLastClass = false →
      st2.thisClass.status = seatsUpdate (pyTrim cell) st.thisClass.status) := by
  unfold processColumn at h
  rw [if_neg (fun hq => by omega : ¬ (idx = 0 ∧ cell = NBSP))] at h
  dsimp only at h
  split at h
  · split_ifs at h with hnote hpn
    · rw [Option.some_inj] at h
      subst h
      refine ⟨rfl, rfl, ?_, fun _ => rfl, fun _ => ⟨rfl, rfl⟩, ?_⟩
      · intro hl _
        exact absurd hnote.1 (by simp [hl])
      · intro _ hl
        exact absurd hnote.1 (by simp [hl])
    · split at h
      · rw [Option.some_inj] at h
        subst h
        refine ⟨rfl, rfl, ?_, fun _ => rfl, fun _ => ⟨rfl, rfl⟩, ?_⟩
        · intro _ hn
          exact absurd hpn.1 (by simp [hn])
        · intro h12 _
          exact absurd hpn.2 (by omega)
      · exact absurd h (by simp)
    · obtain ⟨e1, e2, e3, e4, e5, e6, e7⟩ := extractCell_inv st idx cell st2 h
      refine ⟨e1, e3, fun _ hn => ⟨by rw [e2, hn], e4⟩, fun h12 => ?_,
        fun hl => ⟨(e5 hl).1, (e5 hl).2⟩, fun h12 hl => ?_⟩
      · exact e7 (by omega) h12
      · subst h12
        exact extractCell_twelve st cell st2 hl h
  · rename_i hguard
    rw [Option.some_inj] at h
    subst h
    refine ⟨rfl, rfl, fun _ hn => ⟨hn, rfl⟩, fun _ => rfl,
      fun _ => ⟨rfl, rfl⟩, ?_⟩
    intro h12 hl
    exact absurd (Or.inl ⟨by omega, hl⟩) hguard

lemma procCells_primary (cells : List String) :
    ∀ (idx : Nat) (st st2 : RowSt),
      procCells st idx cells = some st2 → 0 < idx →
      st.isLastClass = false → st.isNote = false →
      st2.isLastClass = false ∧ st2.isNote = false ∧
      st2.groupings = st.groupings ∧ st2.lastClass = st.lastClass := by
  induction cells with
  | nil =>
    intro idx st st2 h _ hl hn
    rw [procCells, Option.some_inj] at h
    subst h
    exact ⟨hl, hn, rfl, rfl⟩
  | cons c cs ih =>
    intro idx st st2 h hidx hl hn
    rw [procCells] at h
    cases hc : processColumn st idx c with
    | none => rw [hc] at h; exact absurd h (by simp)
    | some st1 =>
      rw [hc] at h
      obtain ⟨e1, e2, e3, _, _, _⟩ := processColumn_inv st idx c st1 hc hidx
      obtain ⟨f1, f2⟩ := e3 hl hn
      obtain ⟨g1, g2, g3, g4⟩ :=
        ih (idx + 1) st1 st2 h (by omega) (by rw [e1]; exact hl) f1
      exact ⟨g1, g2, by rw [g3, f2], by rw [g4, e2]⟩

lemma procCells_cont (cells : List String) :
    ∀ (idx : Nat) (st st2 : RowSt),
      procCells st idx cells = some st2 → 0 < idx →
      st.isLastClass = true →
      st2.isLastClass = true ∧ st2.newCourse = st.newCourse := by
  induction cells with
  | nil =>
    intro idx st st2 h _ hl
    rw [procCells, Option.some_inj] at h
    subst h
    exact ⟨hl, rfl⟩
  | cons c cs ih =>
    intro idx st st2 h hidx hl
    rw [procCells] at h
    cases hc : processColumn st idx c with
    | none => rw [hc] at h; exact absurd h (by simp)
    | some st1 =>
      rw [hc] at h
      obtain ⟨e1, _, _, _, e5, _⟩ := processColumn_inv st idx c st1 hc hidx
      obtain ⟨g1, g2⟩ := ih (idx + 1) st1 st2 h (by omega) (by rw [e1]; exact hl)
      exact ⟨g1, by rw [g2, (e5 hl).1]⟩

lemma procCells_status_high (cells : List String) :
    ∀ (idx : Nat) (st st2 : RowSt),
      procCells st idx cells = some st2 → 13 ≤ idx →
      st2.thisClass.status = st.thisClass.status := by
  induction cells with
  | nil =>
    intro idx st st2 h _
    rw [procCells, Option.some_inj] at h
    subst h
    rfl
  | cons c cs ih =>
    intro idx st st2 h hidx
    rw [procCells] at h
    cases hc : processColumn st idx c with
    | none => rw [hc] at h; exact absurd h (by simp)
    | some st1 =>
      rw [hc] at h
      obtain ⟨_, _, _, e4, _, _⟩ := processColumn_inv st idx c st1 hc (by omega)
      rw [ih (idx + 1) st1 st2 h (by omega), e4 (by omega)]

lemma procCells_status_mid (cells : List String) :
    ∀ (idx : Nat) (st st2 : RowSt),
      procCells st idx cells = some st2 →
      0 < idx → idx ≤ 12 → st.isLastClass = false →
      st2.thisClass.status =
        (match cells.get? (12 - idx) with
         | none => st.thisClass.status
         | some c => seatsUpdate (pyTrim c) st.thisClass.status) := by
  induction cells with
  | nil =>
    intro idx st st2 h _ _ _
    rw [procCells, Option.some_inj] at h
    subst h
    rfl
  | cons c cs ih =>
    intro idx st st2 h hidx h12 hl
    rw [procCells] at h
    cases hc : processColumn st idx c with
    | none => rw [hc] at h; exact absurd h (by simp)
    | some st1 =>
      rw [hc] at h
      obtain ⟨e1, _, _, e4, _, e6⟩ := processColumn_inv st idx c st1 hc hidx
      by_cases hi : idx = 12
      · subst hi
        have hstat := e6 rfl hl
        have hrest := procCells_status_high cs 13 st1 st2 h (by omega)
        rw [hrest, hstat]
        rfl
      · have hstat := e4 hi
        have harith : 12 - idx = (12 - (idx + 1)) + 1 := by omega
        have hrec := ih (idx + 1) st1 st2 h (by omega) (by omega)
          (by rw [e1]; exact hl)
        rw [hrec, harith, List.get?_cons_succ, hstat]

lemma seatsUpdate_closed_iff (cell : String) :
    seatsUpdate cell none = some "Closed" ↔ parsePyInt cell = none := by
  unfold seatsUpdate
  cases hp : parsePyInt cell with
  | none => simp
  | some n => by_cases hn : 0 < n <;> simp [hn]

/-! ## Claims C3 and C10 -/

/-- C3.  Seat-status resolution of one record: a seats cell whose integer
parse fails yields "Closed"; a successful parse with a positive value
yields "Open"; a non-positive value yields "Wait List" only when no
status (in particular no "Closed") is recorded yet and otherwise leaves
the recorded status unchanged; and once a status is recorded, a seats
cell on a continuation row of the same record (the guard excludes
column 12 there) and all columns after the seats column leave it intact,
so a later "3" on the same record never turns "Closed" into "Open". -/
theorem seats_resolution :
    (∀ (cell : String) (prior : Option String), parsePyInt cell = none →
      seatsUpdate cell prior = some "Closed") ∧
    (∀ (cell : String) (prior : Option String) (n : Int),
      parsePyInt cell = some n → 0 < n → seatsUpdate cell prior = some "Open") ∧
    (∀ (cell : String) (n : Int), parsePyInt cell = some n → n ≤ 0 →
      seatsUpdate cell none = some "Wait List") ∧
    (∀ (cell : String) (n : Int) (s : String), parsePyInt cell = some n →
      n ≤ 0 → seatsUpdate cell (some s) = some s) ∧
    (∀ (st : RowSt) (cell : String) (st2 : RowSt), st.isLastClass = true →
      processColumn st 12 cell = some st2 →
      st2.thisClass.status = st.thisClass.status) ∧
    (∀ (st : RowSt) (idx : Nat) (cell : String) (st2 : RowSt), 13 ≤ idx →
      processColumn st idx cell = some st2 →
      st2.thisClass.status = st.thisClass.status) := by
  refine ⟨?_, ?_, ?_, ?_, ?_, ?_⟩
  · intro cell prior hp
    unfold seatsUpdate
    rw [hp]
  · intro cell prior n hp hn
    unfold seatsUpdate
    rw [hp]
    simp [hn]
  · intro cell n hp hn
    unfold seatsUpdate
    rw [hp]
    dsimp only
    rw [if_neg (by omega : ¬ (0 : Int) < n)]
  · intro cell n s hp hn
    unfold seatsUpdate
    rw [hp]
    dsimp only
    rw [if_neg (by omega : ¬ (0 : Int) < n)]
  · intro st cell st2 hl h
    exact ((processColumn_inv st 12 cell st2 h (by omega)).2.2.2.2.1 hl).2
  · intro st idx cell st2 hidx h
    exact (processColumn_inv st idx cell st2 h (by omega)).2.2.2.1 (by omega)

/-- C3 witness: the four classification rules applied at the concrete
cells "C", "5" and "0". -/
theorem seats_resolution_witness :
    seatsUpdate "C" none = some "Closed" ∧
    seatsUpdate "5" none = some "Open" ∧
    seatsUpdate "0" none = some "Wait List" ∧
    seatsUpdate "0" (some "Closed") = some "Closed" :=
  ⟨seats_resolution.1 "C" none (by decide),
   seats_resolution.2.1 "5" none 5 (by decide) (by decide),
   seats_resolution.2.2.1 "0" 0 (by decide) (by decide),
   seats_resolution.2.2.2.1 "0" 0 "Closed" (by decide) (by decide)⟩

/-- C10.  Column 0 of a row is never extracted (the guard requires a
positive index on a primary row), so processing it can only perform the
continuation swap — the "C"-to-"Closed" branch is dead; consequently a
primary row's record ends with status "Closed" exactly when its cell at
column 12 exists and fails the integer parse. -/
theorem closed_only_from_seats :
    (∀ (st : RowSt) (cell : String),
      processColumn st 0 cell =
        some (if cell = NBSP then
                { st with isLastClass := true, thisClass := st.lastClass }
              else st)) ∧
    (∀ (ps : PState) (cells : List String) (st2 : RowSt),
      ¬ cells.head? = some NBSP →
      procCells (initRowSt ps) 0 cells = some st2 →
      (st2.thisClass.status = some "Closed" ↔
        ∃ c, cells.get? 12 = some c ∧ parsePyInt (pyTrim c) = none)) := by
  refine ⟨processColumn_zero, ?_⟩
  intro ps cells st2 hh h
  cases cells with
  | nil =>
    rw [procCells, Option.some_inj] at h
    subst h
    constructor
    · intro hs
      exact absurd hs (by simp [initRowSt])
    · rintro ⟨c, hc, -⟩
      exact absurd hc (by simp)
  | cons c cs =>
    rw [procCells] at h
    have hcne : ¬ c = NBSP := fun hq => hh (by rw [hq]; rfl)
    rw [processColumn_zero, if_neg hcne] at h
    have hmid := procCells_status_mid cs 1 (initRowSt ps) st2 h
      (by omega) (by omega) rfl
    have hg : (c :: cs).get? 12 = cs.get? 11 := rfl
    rw [hmid, hg]
    cases hcc : cs.get? 11 with
    | none =>
      constructor
      · intro hs
        exact absurd hs (by simp [initRowSt])
      · rintro ⟨c12, hc12, -⟩
        exact absurd hc12 (by simp)
    | some c12 =>
      constructor
      · intro hs
        exact ⟨c12, rfl, (seatsUpdate_closed_iff (pyTrim c12)).mp hs⟩
      · rintro ⟨c', hc', hp⟩
        rw [Option.some_inj] at hc'
        subst hc'
        exact (seatsUpdate_closed_iff (pyTrim c12)).mpr hp

/-- C10 witness: the dead branch on a concrete primary state whose cell
is the literal "C", and the iff on a one-cell row without a seats
column. -/
theorem closed_only_from_seats_witness :
    processColumn (initRowSt initPState) 0 "C" =
      some (if "C" = NBSP then
              { initRowSt initPState with
                isLastClass := true,
                thisClass := (initRowSt initPState).lastClass }
            else initRowSt initPState) ∧
    ((initRowSt initPState).thisClass.status = some "Closed" ↔
      ∃ c, (["x"] : List String).get? 12 = some c ∧
        parsePyInt (pyTrim c) = none) :=
  ⟨closed_only_from_seats.1 (initRowSt initPState) "C",
   closed_only_from_seats.2 initPState ["x"] (initRowSt initPState)
     (by decide) (by decide)⟩

/-! ## Claim C5 -/

/-- C5.  The time cell is normalised by spacing the range dash and
uppercasing the meridiem markers abutted to the time, and the result is
appended to the last day-of-week entry with a leading separating space,
except that the empty placeholder day entry gets no space. -/
theorem time_normalisation (st : RowSt) (cell : String)
    (front : List String) (lastT : String)
    (h : st.thisClass.times = front ++ [lastT]) :
    processColumn st 9 cell =
      some { st with thisClass := { st.thisClass with
        times := front ++ [lastT ++
          (if ¬ lastT = "" then " " ++ normTime (pyTrim cell)
           else normTime (pyTrim cell))] } } ∧
    normTime "01:00 pm-01:50 pm" = "01:00PM - 01:50PM" := by
  constructor
  · unfold processColumn
    rw [if_neg (by rintro ⟨h9, -⟩; omega : ¬ ((9 : Nat) = 0 ∧ cell = NBSP))]
    dsimp only
    have hguard :
        (0 < 9 ∧ st.isLastClass = false) ∨ (5 < 9 ∧ st.isLastClass = true) := by
      cases hl : st.isLastClass
      · exact Or.inl ⟨by omega, rfl⟩
      · exact Or.inr ⟨by omega, rfl⟩
    rw [if_pos hguard]
    rw [if_neg (show ¬ (st.isLastClass = true ∧ (9 : Nat) = 6 ∧
          containsSub "Note" cell = true) by rintro ⟨-, h96, -⟩; omega),
        if_neg (show ¬ (st.isNote = true ∧ (9 : Nat) = 7) by
          rintro ⟨-, h97⟩; omega)]
    simp only [extractCell, columnKeys]
    rw [show ([none, some ("id", CKind.kint), some ("subject", CKind.kstring),
        some ("coursenum", CKind.kstring), some ("section", CKind.kstring),
        none, some ("title", CKind.kstring), some ("type", CKind.kstring),
        some ("times", CKind.klist), some ("times", CKind.klist), none, none,
        some ("status", CKind.kstring), none, some ("teachers", CKind.klist),
        none, some ("rooms", CKind.klist), none] :
          List (Option (String × CKind))).get? 9 =
        some (some ("times", CKind.klist)) from rfl]
    dsimp only
    rw [if_neg (show ¬ ((9 : Nat) = 0 ∧ st.isLastClass = false) by
          rintro ⟨h90, -⟩; omega),
        if_neg (show ¬ ((9 : Nat) = 3 ∧ st.isLastClass = false) by
          rintro ⟨h93, -⟩; omega),
        if_neg (show ¬ (9 : Nat) = 8 by omega),
        if_pos trivial]
    rw [h, List.getLast?_concat]
    dsimp only
    rw [List.dropLast_concat]
  · decide

/-- A concrete row state whose record already holds one day entry. -/
def stTimes : RowSt :=
  { thisClass := { times := ["MW"] }, lastClass := {}, isLastClass := false,
    isNote := false, newCourse := false, groupings := [] }

/-- C5 witness: the normalisation applied at a concrete time cell. -/
theorem time_normalisation_witness :
    processColumn stTimes 9 "01:00 pm-01:50 pm" =
      some { stTimes with thisClass := { stTimes.thisClass with
        times := ["MW 01:00PM - 01:50PM"] } } := by
  have hcon := (time_normalisation stTimes "01:00 pm-01:50 pm" [] "MW" rfl).1
  rw [hcon]
  decide

/-! ## Claim C2 -/

/-- C2 counterexample.  A three-row term listing whose first course
carries a grouping note and whose third row opens a new course: the note
map is passed with the first course's flush, but the map passed with the
second course's flush is empty and the live map ends empty — the
grouping state is cleared at the course boundary, not kept for the whole
term. -/
theorem groupings_cleared_counterexample :
    ((parseClassList [rowA, rowB, rowC]).map
        (fun st => (st.flushes.map Prod.snd, st.groupings))) =
      some ([gNote, []], []) ∧
    ¬ gNote = ([] : GroupMap) := by
  refine ⟨by decide, by decide⟩

/-- C2 (amended).  Within one course the grouping map accumulated so far
is the one handed to every note and to the course's flush, but at every
course-boundary flush the live grouping map is reset to empty, so the
map is per-course state, not per-term state. -/
theorem groupings_reset_per_course (ps : PState) (row : Row) (ps2 : PState)
    (h : processRow ps row = some ps2) :
    ps2.flushes = ps.flushes ∨
      (ps2.flushes = ps.flushes ++ [(ps.courseClasses, ps.groupings)] ∧
        ps2.groupings = []) := by
  cases row with
  | title =>
    rw [processRow, Option.some_inj] at h
    subst h
    exact Or.inl rfl
  | header =>
    rw [processRow, Option.some_inj] at h
    subst h
    exact Or.inl rfl
  | data cells =>
    rw [processRow] at h
    unfold processDataRow at h
    cases hp : procCells (initRowSt ps) 0 cells with
    | none =>
      rw [hp] at h
      exact absurd h (by simp)
    | some st =>
      rw [hp] at h
      dsimp only at h
      split_ifs at h with h1 h2
      · rw [Option.some_inj] at h
        subst h
        exact Or.inl rfl
      · rw [Option.some_inj] at h
        subst h
        right
        refine ⟨?_, rfl⟩
        have hgr : st.groupings = ps.groupings := by
          cases cells with
          | nil =>
            rw [procCells, Option.some_inj] at hp
            rw [← hp]
            rfl
          | cons c cs =>
            rw [procCells, processColumn_zero] at hp
            by_cases hnb : c = NBSP
            · rw [if_pos hnb] at hp
              dsimp only at hp
              have hcont := procCells_cont cs 1 _ st hp (by omega) rfl
              have hnc : st.newCourse = false := hcont.2.trans rfl
              rw [hnc] at h2
              exact absurd h2 (by simp)
            · rw [if_neg hnb] at hp
              dsimp only at hp
              exact (procCells_primary cs 1 (initRowSt ps) st hp
                (by omega) rfl rfl).2.2.1
        rw [hgr]
      · rw [Option.some_inj] at h
        subst h
        exact Or.inl rfl

/-- The state after processing one empty data row from the initial
state: the empty record is appended, nothing is flushed. -/
def psW2 : PState :=
  { lastClass := {}, courseClasses := [{}], groupings := [], flushes := [] }

/-- C2 witness: the amended statement applied to a concrete row. -/
theorem groupings_reset_witness :
    psW2.flushes = initPState.flushes ∨
      (psW2.flushes = initPState.flushes ++
          [(initPState.courseClasses, initPState.groupings)] ∧
        psW2.groupings = []) :=
  groupings_reset_per_course initPState (Row.data []) psW2 (by decide)

/-! ## Claim C8 -/

lemma addClassesGo_true (hasDesc : String → String → Bool)
    (groupings : GroupMap) (term : Int) :
    ∀ (l : List Record) (outs : List SecOut) (tasks : List FetchTask),
      addClassesGo hasDesc groupings term l true = some (outs, tasks) →
      tasks = [] := by
  intro l
  induction l with
  | nil =>
    intro outs tasks h
    rw [addClassesGo, Option.some_inj] at h
    rw [← (Prod.mk.injEq _ _ _ _).mp h |>.2]
  | cons r rs ih =>
    intro outs tasks h
    rw [addClassesGo] at h
    split at h
    · rw [if_pos rfl] at h
      split at h
      · rename_i os ts hrec
        rw [Option.some_inj] at h
        rw [← (Prod.mk.injEq _ _ _ _).mp h |>.2]
        exact ih os ts hrec
      · exact absurd h (by simp)
    · exact absurd h (by simp)

lemma addClassesGo_false (hasDesc : String → String → Bool)
    (groupings : GroupMap) (term : Int) :
    ∀ (l : List Record) (outs : List SecOut) (tasks : List FetchTask),
      addClassesGo hasDesc groupings term l false = some (outs, tasks) →
      tasks.length ≤ 1 ∧
      (¬ tasks = [] ↔ ∃ r ∈ l, ∃ cn sb, r.coursenum = some cn ∧
        r.subject = some sb ∧ hasDesc cn sb = false) := by
  intro l
  induction l with
  | nil =>
    intro outs tasks h
    rw [addClassesGo, Option.some_inj] at h
    rw [← (Prod.mk.injEq _ _ _ _).mp h |>.2]
    simp
  | cons r rs ih =>
    intro outs tasks h
    rw [addClassesGo] at h
    split at h
    · rename_i thistitle ty sec ht hty hsec
      rw [if_neg (by simp)] at h
      split at h
      · rename_i cn sb hc hs
        split_ifs at h with hdesc
        · split at h
          · rename_i os ts hrec
            rw [Option.some_inj] at h
            have hts : tasks = ts := ((Prod.mk.injEq _ _ _ _).mp h).2.symm
            subst hts
            obtain ⟨ih1, ih2⟩ := ih os tasks hrec
            refine ⟨ih1, ?_⟩
            rw [ih2]
            constructor
            · rintro ⟨r2, hr2, hrest⟩
              exact ⟨r2, List.mem_cons_of_mem r hr2, hrest⟩
            · rintro ⟨r2, hr2, cn2, sb2, hc2, hs2, hd2⟩
              rcases List.mem_cons.mp hr2 with hr0 | hr0
              · subst hr0
                rw [hc] at hc2
                rw [hs] at hs2
                rw [Option.some_inj] at hc2 hs2
                subst hc2
                subst hs2
                exact absurd hdesc (by rw [hd2]; simp)
              · exact ⟨r2, hr0, cn2, sb2, hc2, hs2, hd2⟩
          · exact absurd h (by simp)
        · split at h
          · rename_i os ts hrec
            rw [Option.some_inj] at h
            have hts : tasks =
                { coursenum := cn, subject := sb, title := thistitle } :: ts :=
              ((Prod.mk.injEq _ _ _ _).mp h).2.symm
            have hnil := addClassesGo_true hasDesc groupings term rs os ts hrec
            subst hnil
            refine ⟨by rw [hts]; simp, ?_⟩
            constructor
            · intro _
              exact ⟨r, List.mem_cons_self r rs, cn, sb, hc, hs,
                by simpa using hdesc⟩
            · intro _
              rw [hts]
              simp
          · exact absurd h (by simp)
      · exact absurd h (by simp)
    · exact absurd h (by simp)

/-- C8.  For one flushed batch, addClasses enqueues at most one
FetchTask, and it enqueues one exactly when some record of the batch has
no stored description at the time of its check; once the flag is set no
later record of the batch enqueues a duplicate. -/
theorem addClasses_single_fetch (hasDesc : String → String → Bool)
    (l : List Record) (groupings : GroupMap) (term : Int)
    (outs : List SecOut) (tasks : List FetchTask)
    (h : addClasses hasDesc l groupings term = some (outs, tasks)) :
    tasks.length ≤ 1 ∧
    (¬ tasks = [] ↔ ∃ r ∈ l, ∃ cn sb, r.coursenum = some cn ∧
      r.subject = some sb ∧ hasDesc cn sb = false) :=
  addClassesGo_false hasDesc groupings term l outs tasks h

/-- A complete concrete record of course 2101. -/
def recW : Record :=
  { id := some 20001, subject := some "ACCT", coursenum := some "2101",
    sect := some "001", title := some "Intro Acct", rtype := some "LEC",
    times := ["MW"], status := some "Open", teachers := ["John Smith"],
    rooms := ["A101"] }

/-- The single section output addClasses produces for recW with no
groupings. -/
def outW : SecOut :=
  { record := { recW with title := none }, group := [PyVal.pstr "1"],
    term := 201910, location := "Main Campus" }

/-- C8 witness: a batch of two records of one course with no stored
description enqueues exactly one task. -/
theorem addClasses_single_fetch_witness :
    ([{ coursenum := "2101", subject := "ACCT", title := "Intro Acct" }] :
        List FetchTask).length ≤ 1 ∧
    (¬ ([{ coursenum := "2101", subject := "ACCT", title := "Intro Acct" }] :
        List FetchTask) = [] ↔
      ∃ r ∈ [recW, recW], ∃ cn sb, r.coursenum = some cn ∧
        r.subject = some sb ∧ (fun _ _ => false : String → String → Bool) cn sb = false) :=
  addClasses_single_fetch (fun _ _ => false) [recW, recW] [] 201910
    [outW, outW] [{ coursenum := "2101", subject := "ACCT", title := "Intro Acct" }]
    (by decide)
